import Mathlib

/-!
Verification development for the prometheus-to-cloudwatch bridge
(`prometheus_to_cloudwatch.go`).  The pipeline's pure core — metric
filtering, dimension selection, datum construction and batching — is
embedded shallowly: Go maps become association lists (carrying their
iteration order explicitly where the code iterates over them), Go slices
become lists, `float64` sample values become an explicit variant type over
exact rationals, and compiled glob matchers become abstract boolean
predicates on strings.
-/

set_option exponentiation.threshold 400

namespace PTC

/-- A compiled glob pattern, abstracted as its matching predicate
(`glob.Glob.Match`). -/
abbrev Pattern := String → Bool

/-- `StringSet` (`map[string]bool` in the source): membership lookup with
default `false`. -/
abbrev StringSet := String → Bool

/-- A Prometheus label set (`model.Metric`, a `map[LabelName]LabelValue`),
as an association list in some enumeration order. -/
abbrev Metric := List (String × String)

/-- Go map read `m[k]` returning the value and an `ok` flag. -/
def metricLookup (m : Metric) (k : String) : Option String :=
  (m.find? (fun p => p.1 == k)).map Prod.snd

/-- Go map read defaulting to the zero value `""` when the key is absent. -/
def metricLookupD (m : Metric) (k : String) : String :=
  (metricLookup m k).getD ""

/-- Association-list read of a `map[string]string` (used for
`b.replaceDimensions[name]`). -/
def mapLookup (m : List (String × String)) (k : String) : Option String :=
  (m.find? (fun p => p.1 == k)).map Prod.snd

def batchSize : Nat := 10
def metricNameLabel : String := "__name__"
def cwHighResLabel : String := "__cw_high_res"
def cwUnitLabel : String := "__cw_unit"

/-- Strict lexicographic comparison of char lists, mirroring the byte-wise
string comparison `sort.Strings` relies on.  Written as a structural
boolean function so that concrete runs evaluate inside the kernel. -/
def charListLt : List Char → List Char → Bool
  | [], [] => false
  | [], _ :: _ => true
  | _ :: _, [] => false
  | a :: as, b :: bs =>
    if a < b then true
    else if b < a then false
    else charListLt as bs

/-- Lexicographic `≤` on strings (byte-wise, as Go compares strings). -/
def strLe (a b : String) : Bool := !(charListLt b.data a.data)

/-- `sort.Strings`: sort a string slice into ascending lexicographic
order. -/
def sortStrings (l : List String) : List String :=
  List.insertionSort (fun a b => strLe a b = true) l

/-- `MatcherWithStringSet`: a glob matcher with a set of associated strings. -/
structure MatcherWithStringSet where
  matcher : Pattern
  set : StringSet

/-- `getMatchingSet` returns the first set whose matcher matches the string,
or `none` (`nil`) if there is no match. -/
def getMatchingSet : List MatcherWithStringSet → String → Option StringSet
  | [], _ => none
  | r :: rest, str => if r.matcher str then some r.set else getMatchingSet rest str

/-- The fields of `Bridge` that the filter/transform/batch pipeline reads.
`additionalDimensions` models the Go map together with the enumeration
order that a `range` loop over it happens to produce. -/
structure Bridge where
  additionalDimensions : List (String × String)
  replaceDimensions : List (String × String)
  includeMetrics : List Pattern
  excludeMetrics : List Pattern
  includeDimensionsForMetrics : List MatcherWithStringSet
  excludeDimensionsForMetrics : List MatcherWithStringSet

/-- `anyPatternMatches` reports whether any pattern matches the string. -/
def anyPatternMatches (patterns : List Pattern) (s : String) : Bool :=
  patterns.any (fun pat => pat s)

/-- `shouldIgnoreMetric`: the blacklist takes priority over the whitelist. -/
def shouldIgnoreMetric (b : Bridge) (metricName : String) : Bool :=
  if anyPatternMatches b.excludeMetrics metricName then true
  else if b.includeMetrics.length = 0 then false
  else if anyPatternMatches b.includeMetrics metricName then false
  else true

/-- `shouldIncludeDimension`: reserved labels are never dimensions; then
the blacklist is consulted first, and the whitelist only if present. -/
def shouldIncludeDimension (dimName : String) (includeSet excludeSet : Option StringSet) : Bool :=
  if dimName = metricNameLabel ∨ dimName = cwHighResLabel ∨ dimName = cwUnitLabel then false
  else if (match excludeSet with | some s => s dimName | none => false) then false
  else match includeSet with
    | none => true
    | some s => s dimName

/-- A `float64` sample value: NaN, an infinity, or a finite value modelled
as an exact rational. -/
inductive GoFloat where
  | nan : GoFloat
  | inf (positive : Bool) : GoFloat
  | finite (q : ℚ) : GoFloat
deriving DecidableEq

/-- `math.Pow(2, -260)`, exact (given in normal form `1 / 2^260` directly;
`valueTooSmall_eq` below certifies the value). -/
def valueTooSmall : ℚ := ⟨1, 2 ^ 260, by norm_num, by simp⟩

/-- `math.Pow(2, 260)`, exact. -/
def valueTooLarge : ℚ := ((2 ^ (260 : ℕ) : ℤ) : ℚ)

/-- `validValue`: CloudWatch rejects non-finite values and non-zero values
whose magnitude falls outside the accepted range; zero is checked first so
it never trips the "too small" test. -/
def validValue : GoFloat → Bool
  | .inf _ => false
  | .nan => false
  | .finite v =>
    if v = 0 then true
    else if |v| ≤ valueTooSmall ∨ valueTooLarge ≤ |v| then false
    else true

/-- `getName`: the `__name__` label value, or `""` when absent. -/
def getName (m : Metric) : String :=
  match metricLookup m metricNameLabel with
  | some n => n
  | none => ""

/-- A CloudWatch dimension: a name/value pair. -/
structure Dimension where
  name : String
  value : String
deriving DecidableEq

/-- `model.Sample`: a metric label set, a value and a timestamp. -/
structure Sample where
  metric : Metric
  value : GoFloat
  timestamp : Int
deriving DecidableEq

/-- `cloudwatch.MetricDatum`, restricted to the fields the bridge sets. -/
structure MetricDatum where
  metricName : String
  value : GoFloat
  timestamp : Int
  dimensions : List Dimension
  storageResolution : Int
  unit : String
deriving DecidableEq

/-- Returns 1 if the metric contains a `__cw_high_res` label, otherwise 60. -/
def getResolution (m : Metric) : Int :=
  if (metricLookup m cwHighResLabel).isSome then 1 else 60

/-- `getUnit`: the `__cw_unit` label value if present, else `"None"`. -/
def getUnit (m : Metric) : String :=
  match metricLookup m cwUnitLabel with
  | some u => u
  | none => "None"

/-- Modelled from the spec: `main.go` builds the `Config` with
`ForceHighRes: *forceHighRes`, but the `Config`/`Bridge` revision carrying
that field (and its use when computing the storage resolution) is not among
the pipeline sources here; per the spec, the resolution is 1 when the
sample carries the high-resolution control label or the global
force-high-resolution flag is set, and 60 otherwise. -/
def cwResolution (forceHighRes : Bool) (m : Metric) : Int :=
  if (metricLookup m cwHighResLabel).isSome || forceHighRes then 1 else 60

/-- The body of the `for _, name := range names` loop of `getDimensions`:
skip empty names and empty values, emit a dimension for the rest, and —
when dimension replacement is configured — emit in lockstep a replaced
dimension (the substitute value if the name is in the map, the original
value otherwise). -/
def dimsOfNames (m : Metric) (b : Bridge) : List String → List Dimension × List Dimension
  | [] => ([], [])
  | name :: rest =>
    let tail := dimsOfNames m b rest
    if name ≠ "" then
      let val := metricLookupD m name
      if val ≠ "" then
        let d : Dimension := ⟨name, val⟩
        if b.replaceDimensions.length > 0 then
          match mapLookup b.replaceDimensions name with
          | some replacement => (d :: tail.1, (⟨name, replacement⟩ : Dimension) :: tail.2)
          | none => (d :: tail.1, d :: tail.2)
        else (d :: tail.1, tail.2)
      else tail
    else tail

/-- `getDimensions` returns up to `num` dimensions for the metric (one per
label except `__name__` and the control labels), sorted by label name,
together with the replaced-dimension variant. -/
def getDimensions (m : Metric) (num : Nat) (b : Bridge) : List Dimension × List Dimension :=
  if m.length = 0 then ([], [])
  else if m.length = 1 ∧ (metricLookup m metricNameLabel).isSome then ([], [])
  else
    let metricName := getName m
    let includeSet := getMatchingSet b.includeDimensionsForMetrics metricName
    let excludeSet := getMatchingSet b.excludeDimensionsForMetrics metricName
    let names := (m.map Prod.fst).filter
      (fun dimName => shouldIncludeDimension dimName includeSet excludeSet)
    let sortedNames := sortStrings names
    let pair := dimsOfNames m b sortedNames
    (if pair.1.length > num then pair.1.take num else pair.1,
     if pair.2.length > num then pair.2.take num else pair.2)

/-- `getAdditionalDimensions`: one dimension per entry of the
`additionalDimensions` map, in the map's enumeration order. -/
def getAdditionalDimensions (b : Bridge) : List Dimension :=
  b.additionalDimensions.map (fun kv => ⟨kv.1, kv.2⟩)

/-- `appendDatum`: append to `data` the datum for one sample (skipping
empty label sets and invalid values), plus the replaced-dimensions datum
when dimension replacement produced a non-empty list. -/
def appendDatum (data : List MetricDatum) (name : String) (s : Sample) (b : Bridge) :
    List MetricDatum :=
  let metric := s.metric
  if metric.length = 0 then data
  else if !validValue s.value then data
  else
    let pair := getDimensions metric (10 - b.additionalDimensions.length) b
    let datum : MetricDatum :=
      ⟨name, s.value, s.timestamp, pair.1 ++ getAdditionalDimensions b,
       getResolution metric, getUnit metric⟩
    let data2 := data ++ [datum]
    if pair.2.length > 0 then
      data2 ++ [⟨name, s.value, s.timestamp, pair.2 ++ getAdditionalDimensions b,
                 getResolution metric, getUnit metric⟩]
    else data2

/-- The outcome of one `publishMetricsToCloudWatch` cycle over already
extracted samples: the metric count, the sequence of batches handed to
`flush` (in order; `flush` is a no-op on an empty batch), and whether the
final flush returned an error. -/
structure PublishOutcome where
  count : Nat
  flushes : List (List MetricDatum)
  err : Bool
deriving DecidableEq

/-- The sample loop of `publishMetricsToCloudWatch`.  `fail i` tells
whether the i-th `flush` call of the cycle fails; a mid-loop flush error is
only logged (its value is discarded), while the final flush's error is the
function's returned error.  `data` is the accumulated batch, `count` the
running metric count, `fi` the index of the next flush. -/
def publishGo (fail : Nat → Bool) (b : Bridge) :
    List Sample → List MetricDatum → Nat → Nat → PublishOutcome
  | [], data, count, fi =>
    { count := count + data.length
      flushes := if data.length > 0 then [data] else []
      err := if data.length > 0 then fail fi else false }
  | s :: rest, data, count, fi =>
    let name := getName s.metric
    if shouldIgnoreMetric b name then publishGo fail b rest data count fi
    else
      let data2 := appendDatum data name s b
      if data2.length = batchSize then
        let r := publishGo fail b rest [] (count + batchSize) (fi + 1)
        { r with flushes := data2 :: r.flushes }
      else publishGo fail b rest data2 count fi

/-- The datums a single non-ignored sample contributes (the suffix
`appendDatum` appends to its argument). -/
def sampleData (name : String) (s : Sample) (b : Bridge) : List MetricDatum :=
  appendDatum [] name s b

/-- All datums a cycle's samples contribute, in sample order, ignoring
metrics rejected by the metric filter. -/
def flatDatums (b : Bridge) : List Sample → List MetricDatum
  | [] => []
  | s :: rest =>
    (if shouldIgnoreMetric b (getName s.metric) then []
     else sampleData (getName s.metric) s b) ++ flatDatums b rest

/-- Fuel-driven worker for `chunksOf` (structural recursion, so that
concrete runs evaluate inside the kernel; any fuel at least the list
length gives the same answer). -/
def chunksOfAux (n : Nat) : Nat → List α → List (List α)
  | _, [] => []
  | 0, _ :: _ => []
  | fuel + 1, a :: l => (a :: l.take (n - 1)) :: chunksOfAux n fuel (l.drop (n - 1))

/-- Splitting a list into consecutive chunks: every chunk has `n` elements
except possibly the last, which is shorter and non-empty. -/
def chunksOf (n : Nat) (l : List α) : List (List α) :=
  chunksOfAux n l.length l

/-- The label names of a metric that survive the per-metric dimension
policy (reserved labels removed, exclude-set dropped, include-set applied
when one matched). -/
def eligibleNames (m : Metric) (b : Bridge) : List String :=
  (m.map Prod.fst).filter (fun dimName =>
    shouldIncludeDimension dimName
      (getMatchingSet b.includeDimensionsForMetrics (getName m))
      (getMatchingSet b.excludeDimensionsForMetrics (getName m)))

/-- The dimension a surviving label name yields, or `none` when the name or
its looked-up value is empty. -/
def dimOfName (m : Metric) (n : String) : Option Dimension :=
  if n ≠ "" ∧ metricLookupD m n ≠ "" then some ⟨n, metricLookupD m n⟩ else none

/-- Specification-shaped dimension list: the surviving label names, sorted
lexicographically, with empty-valued entries dropped. -/
def specDims (m : Metric) (b : Bridge) : List Dimension :=
  (sortStrings (eligibleNames m b)).filterMap (dimOfName m)

/-- One dimension-substitution step: a dimension whose name appears in the
substitution map takes the configured substitute value; any other keeps its
original value. -/
def substDim (repl : List (String × String)) (d : Dimension) : Dimension :=
  match mapLookup repl d.name with
  | some replacement => ⟨d.name, replacement⟩
  | none => d

/-- A bridge with everything unset: no filters, no extra dimensions, no
substitution. -/
def bridge0 : Bridge := ⟨[], [], [], [], [], []⟩

/-- A bridge whose only configuration is the dimension-substitution map
`host ↦ ALL`. -/
def bridgeRepl : Bridge := ⟨[], [("host", "ALL")], [], [], [], []⟩

/-- A sample carrying only the metric-name label. -/
def sampleNameOnly : Sample := ⟨[("__name__", "m0")], .finite 1, 0⟩

/-- A sample with one `host` dimension, indexed by a suffix. -/
def sampleHost (i : String) : Sample :=
  ⟨[("__name__", "m" ++ i), ("host", "h" ++ i)], .finite 1, 0⟩

/-- Seven samples of which six contribute two datums each once dimension
substitution is configured: the accumulator size then steps through odd
values only and the equality test against the batch size never fires. -/
def samplesOddStep : List Sample :=
  [sampleNameOnly, sampleHost "1", sampleHost "2", sampleHost "3",
   sampleHost "4", sampleHost "5", sampleHost "6"]

/-- Twenty-five samples that each contribute exactly one datum. -/
def samples25 : List Sample := (List.range 25).map (fun i => sampleHost (toString i))

/-- A sample whose labels are the metric-name label and the two reserved
control labels only. -/
def sampleReserved : Sample :=
  ⟨[("__name__", "foo"), (cwUnitLabel, "Bytes"), (cwHighResLabel, "")], .finite 1, 0⟩

/-- The twelve-label metric of the repository's more_than_10_labels test
case. -/
def metricMany : Metric :=
  [("__name__", "foo"), ("label1", "1"), ("label2", "2"), ("label3", "3"),
   ("label4", "4"), ("label5", "5"), ("label6", "6"), ("label7", "7"),
   ("label8", "8"), ("label9", "9"), ("label10", "10"), ("label11", "11")]

/-- A bridge whose extra-dimensions map enumerates as a, b. -/
def bridgeExtrasAB : Bridge := ⟨[("a", "1"), ("b", "2")], [], [], [], [], []⟩

/-! Lexicographic order: the structural comparison agrees with the string
order. -/

theorem charListLt_iff (cs ds : List Char) :
    charListLt cs ds = true ↔ List.Lex (· < ·) cs ds := by
  induction cs generalizing ds with
  | nil =>
    cases ds with
    | nil =>
      simp only [charListLt]
      exact ⟨fun h => by simp at h, fun h => absurd h (List.Lex.not_nil_right _ _)⟩
    | cons d ds =>
      simp only [charListLt]
      exact ⟨fun _ => List.Lex.nil, fun _ => trivial⟩
  | cons c cs ih =>
    cases ds with
    | nil =>
      simp only [charListLt]
      exact ⟨fun h => by simp at h, fun h => absurd h (List.Lex.not_nil_right _ _)⟩
    | cons d ds =>
      simp only [charListLt]
      by_cases h1 : c < d
      · simp only [if_pos h1]
        exact ⟨fun _ => List.Lex.rel h1, fun _ => trivial⟩
      · simp only [if_neg h1]
        by_cases h2 : d < c
        · simp only [if_pos h2]
          constructor
          · intro h; simp at h
          · intro h
            cases h with
            | rel h => exact absurd h h1
            | cons h => exact absurd h2 (lt_irrefl _)
        · simp only [if_neg h2]
          have hcd : c = d := le_antisymm (not_lt.mp h2) (not_lt.mp h1)
          subst hcd
          rw [ih ds]
          refine ⟨List.Lex.cons, fun h => ?_⟩
          cases h with
          | rel h => exact absurd h h1
          | cons h => exact h

theorem strLe_iff (a b : String) : strLe a b = true ↔ a ≤ b := by
  show _ ↔ ¬ b < a
  rw [String.lt_iff_toList_lt]
  show _ ↔ ¬ List.Lex (· < ·) b.data a.data
  rw [← charListLt_iff]
  simp [strLe]

theorem sortStrings_sorted (l : List String) : List.Sorted (· ≤ ·) (sortStrings l) := by
  have htot : IsTotal String (fun a b => strLe a b = true) := ⟨fun a b => by
    rcases le_total a b with h | h
    · exact Or.inl ((strLe_iff a b).mpr h)
    · exact Or.inr ((strLe_iff b a).mpr h)⟩
  have htrans : IsTrans String (fun a b => strLe a b = true) := ⟨fun a b c hab hbc =>
    (strLe_iff a c).mpr (le_trans ((strLe_iff a b).mp hab) ((strLe_iff b c).mp hbc))⟩
  have h := List.sorted_insertionSort (fun a b => strLe a b = true) l
  exact List.Pairwise.imp (fun hab => (strLe_iff _ _).mp hab) h

theorem sortStrings_perm (l : List String) : (sortStrings l).Perm l :=
  List.perm_insertionSort _ l

/-! The CloudWatch value-range constants in their familiar form. -/

theorem valueTooSmall_eq : valueTooSmall = 1 / 2 ^ (260 : ℕ) := by
  unfold valueTooSmall
  rw [Rat.mk'_eq_divInt, Rat.divInt_eq_div]
  push_cast
  ring

theorem valueTooLarge_eq : valueTooLarge = 2 ^ (260 : ℕ) := by
  unfold valueTooLarge
  push_cast
  ring

/-! The dimension loop, characterised. -/

theorem dimsOfNames_fst (m : Metric) (b : Bridge) (l : List String) :
    (dimsOfNames m b l).1 = l.filterMap (dimOfName m) := by
  induction l with
  | nil => rfl
  | cons name rest ih =>
    simp only [dimsOfNames, List.filterMap_cons, dimOfName]
    by_cases h1 : name ≠ ""
    · by_cases h2 : metricLookupD m name ≠ ""
      · simp only [if_pos h1, if_pos h2, if_pos (And.intro h1 h2)]
        by_cases h3 : b.replaceDimensions.length > 0
        · simp only [if_pos h3]
          cases mapLookup b.replaceDimensions name <;> simp [ih]
        · simp only [if_neg h3]
          simp [ih]
      · rw [if_pos h1, if_neg h2, if_neg (by tauto : ¬ (name ≠ "" ∧ metricLookupD m name ≠ ""))]
        exact ih
    · rw [if_neg h1, if_neg (by tauto : ¬ (name ≠ "" ∧ metricLookupD m name ≠ ""))]
      exact ih

theorem dimsOfNames_snd_empty (m : Metric) (b : Bridge) (l : List String)
    (h : b.replaceDimensions = []) : (dimsOfNames m b l).2 = [] := by
  induction l with
  | nil => rfl
  | cons name rest ih =>
    simp only [dimsOfNames]
    have h3 : ¬ b.replaceDimensions.length > 0 := by simp [h]
    by_cases h1 : name ≠ ""
    · by_cases h2 : metricLookupD m name ≠ ""
      · simp only [if_pos h1, if_pos h2, if_neg h3]
        exact ih
      · simp only [if_pos h1, if_neg h2]
        exact ih
    · simp only [if_neg h1]
      exact ih

theorem dimsOfNames_snd_map (m : Metric) (b : Bridge) (l : List String)
    (h : b.replaceDimensions ≠ []) :
    (dimsOfNames m b l).2 = (dimsOfNames m b l).1.map (substDim b.replaceDimensions) := by
  induction l with
  | nil => rfl
  | cons name rest ih =>
    simp only [dimsOfNames]
    have h3 : b.replaceDimensions.length > 0 := List.length_pos.mpr h
    by_cases h1 : name ≠ ""
    · by_cases h2 : metricLookupD m name ≠ ""
      · simp only [if_pos h1, if_pos h2, if_pos h3]
        cases hrep : mapLookup b.replaceDimensions name with
        | none => simp [List.map_cons, substDim, hrep, ih]
        | some replacement => simp [List.map_cons, substDim, hrep, ih]
      · simp only [if_pos h1, if_neg h2]
        exact ih
    · simp only [if_neg h1]
      exact ih

theorem getDimensions_fst (m : Metric) (num : Nat) (b : Bridge) :
    (getDimensions m num b).1 = (specDims m b).take num := by
  unfold getDimensions
  by_cases h0 : m.length = 0
  · have hm : m = [] := List.length_eq_zero.mp h0
    subst hm
    simp [specDims, eligibleNames, sortStrings]
  · rw [if_neg h0]
    by_cases h1 : m.length = 1 ∧ (metricLookup m metricNameLabel).isSome
    · rw [if_pos h1]
      obtain ⟨hlen, hsome⟩ := h1
      obtain ⟨p, hp⟩ := List.length_eq_one.mp hlen
      have hname : p.1 = metricNameLabel := by
        subst hp
        simp only [metricLookup, List.find?] at hsome
        by_cases hb : (p.1 == metricNameLabel) = true
        · exact eq_of_beq hb
        · rw [Bool.not_eq_true] at hb
          simp [hb] at hsome
      have : eligibleNames m b = [] := by
        subst hp
        simp [eligibleNames, shouldIncludeDimension, hname]
      simp [specDims, this, sortStrings]
    · rw [if_neg h1]
      simp only [specDims, eligibleNames]
      rw [dimsOfNames_fst]
      split
      · rfl
      · next h2 => exact (List.take_of_length_le (Nat.le_of_not_lt h2)).symm

theorem getDimensions_snd_empty (m : Metric) (num : Nat) (b : Bridge)
    (h : b.replaceDimensions = []) : (getDimensions m num b).2 = [] := by
  unfold getDimensions
  by_cases h0 : m.length = 0
  · simp [h0]
  · rw [if_neg h0]
    by_cases h1 : m.length = 1 ∧ (metricLookup m metricNameLabel).isSome
    · rw [if_pos h1]
    · rw [if_neg h1]
      simp only
      rw [dimsOfNames_snd_empty _ _ _ h]
      simp

theorem getDimensions_snd_map (m : Metric) (num : Nat) (b : Bridge)
    (h : b.replaceDimensions ≠ []) :
    (getDimensions m num b).2 = (getDimensions m num b).1.map (substDim b.replaceDimensions) := by
  unfold getDimensions
  by_cases h0 : m.length = 0
  · simp [h0]
  · rw [if_neg h0]
    by_cases h1 : m.length = 1 ∧ (metricLookup m metricNameLabel).isSome
    · simp [if_pos h1]
    · rw [if_neg h1]
      simp only
      rw [dimsOfNames_snd_map _ _ _ h, List.length_map]
      split
      · simp [List.map_take]
      · rfl

theorem appendDatum_eq_append (data : List MetricDatum) (name : String) (s : Sample)
    (b : Bridge) : appendDatum data name s b = data ++ appendDatum [] name s b := by
  simp only [appendDatum]
  split
  · simp
  · split
    · simp
    · split
      · simp
      · simp

/-! Chunking. -/

theorem chunksOfAux_congr (n : Nat) : ∀ (fuel fuel' : Nat) (l : List α),
    l.length ≤ fuel → l.length ≤ fuel' → chunksOfAux n fuel l = chunksOfAux n fuel' l := by
  intro fuel
  induction fuel with
  | zero =>
    intro fuel' l h h'
    have : l = [] := List.eq_nil_of_length_eq_zero (Nat.le_zero.mp h)
    subst this
    cases fuel' <;> rfl
  | succ f ih =>
    intro fuel' l h h'
    cases l with
    | nil => cases fuel' <;> rfl
    | cons a t =>
      cases fuel' with
      | zero => simp at h'
      | succ f2 =>
        simp only [chunksOfAux]
        congr 1
        apply ih
        · have : (t.drop (n - 1)).length ≤ t.length := by
            rw [List.length_drop]; omega
          simp only [List.length_cons] at h
          omega
        · have : (t.drop (n - 1)).length ≤ t.length := by
            rw [List.length_drop]; omega
          simp only [List.length_cons] at h'
          omega

theorem chunksOf_cons (n : Nat) (a : α) (l : List α) :
    chunksOf n (a :: l) = (a :: l.take (n - 1)) :: chunksOf n (l.drop (n - 1)) := by
  simp only [chunksOf, List.length_cons, chunksOfAux]
  congr 1
  apply chunksOfAux_congr
  · rw [List.length_drop]; omega
  · exact Nat.le_refl _

theorem chunksOf_of_length_le (n : Nat) (l : List α) (h0 : l ≠ []) (h : l.length ≤ n) :
    chunksOf n l = [l] := by
  cases l with
  | nil => exact absurd rfl h0
  | cons a t =>
    rw [chunksOf_cons]
    simp only [List.length_cons] at h
    rw [List.take_of_length_le (by omega), List.drop_eq_nil_of_le (by omega)]
    rfl

theorem chunksOf_append_of_length (n : Nat) (l r : List α) (h : l.length = n) (hn : 0 < n) :
    chunksOf n (l ++ r) = l :: chunksOf n r := by
  cases l with
  | nil => simp at h; omega
  | cons a t =>
    rw [List.cons_append, chunksOf_cons]
    simp only [List.length_cons] at h
    have ht : n - 1 = t.length := by omega
    rw [ht, List.take_left, List.drop_left]

theorem chunksOfAux_length_le (n : Nat) (hn : 0 < n) : ∀ (fuel : Nat) (l : List α),
    ∀ c ∈ chunksOfAux n fuel l, c.length ≤ n := by
  intro fuel
  induction fuel with
  | zero =>
    intro l c hc
    cases l <;> simp [chunksOfAux] at hc
  | succ f ih =>
    intro l c hc
    cases l with
    | nil => simp [chunksOfAux] at hc
    | cons a t =>
      simp only [chunksOfAux, List.mem_cons] at hc
      rcases hc with hc | hc
      · subst hc
        simp only [List.length_cons, List.length_take]
        omega
      · exact ih _ c hc

theorem chunksOf_length_le (n : Nat) (hn : 0 < n) (l : List α) :
    ∀ c ∈ chunksOf n l, c.length ≤ n :=
  chunksOfAux_length_le n hn l.length l

/-! The publish loop. -/

theorem sampleData_length_le_one (name : String) (s : Sample) (b : Bridge)
    (hrep : b.replaceDimensions = []) : (sampleData name s b).length ≤ 1 := by
  simp only [sampleData, appendDatum]
  split
  · simp
  · split
    · simp
    · split
      · next h2 =>
        rw [getDimensions_snd_empty _ _ _ hrep] at h2
        simp at h2
      · simp

theorem publishGo_flushes_chunks (fail : Nat → Bool) (b : Bridge)
    (hrep : b.replaceDimensions = []) :
    ∀ (ss : List Sample) (data : List MetricDatum) (count fi : Nat),
      data.length < batchSize →
      (publishGo fail b ss data count fi).flushes =
        chunksOf batchSize (data ++ flatDatums b ss) := by
  intro ss
  induction ss with
  | nil =>
    intro data count fi h
    simp only [publishGo, flatDatums, List.append_nil]
    by_cases h0 : data = []
    · subst h0
      simp [chunksOf, chunksOfAux]
    · rw [chunksOf_of_length_le _ _ h0 (Nat.le_of_lt h)]
      simp [List.length_pos.mpr h0]
  | cons s rest ih =>
    intro data count fi h
    simp only [publishGo, flatDatums]
    split
    · rw [ih data count fi h]
      simp
    · rw [appendDatum_eq_append]
      split
      · next heq =>
        have h2 := ih [] (count + batchSize) (fi + 1) (by simp [batchSize])
        simp only [h2, List.nil_append]
        rw [← List.append_assoc]
        exact (chunksOf_append_of_length _ _ _ heq (by norm_num [batchSize])).symm
      · next hne =>
        have hsd := sampleData_length_le_one (getName s.metric) s b hrep
        simp only [sampleData] at hsd
        have hlt : (data ++ appendDatum [] (getName s.metric) s b).length < batchSize := by
          rw [List.length_append] at hne ⊢
          omega
        rw [ih _ count fi hlt]
        rw [List.append_assoc]
        rfl

/-- C2: the metric filter rejects a metric exactly when some exclude
pattern matches (regardless of the include configuration), or when include
patterns are configured and none of them matches; otherwise — no exclude
match and either no include patterns or some include match — the metric is
accepted. -/
theorem shouldIgnoreMetric_spec (b : Bridge) (name : String) :
    shouldIgnoreMetric b name = true ↔
      (anyPatternMatches b.excludeMetrics name = true ∨
        (b.includeMetrics ≠ [] ∧ anyPatternMatches b.includeMetrics name = false)) := by
  unfold shouldIgnoreMetric
  by_cases h1 : anyPatternMatches b.excludeMetrics name = true
  · simp [h1]
  · simp only [Bool.not_eq_true] at h1
    rw [if_neg (by simp [h1])]
    by_cases h2 : b.includeMetrics.length = 0
    · simp [h2, List.length_eq_zero.mp h2, h1]
    · rw [if_neg h2]
      have hne : b.includeMetrics ≠ [] := by
        intro hcontra
        rw [hcontra] at h2
        simp at h2
      by_cases h3 : anyPatternMatches b.includeMetrics name = true
      · simp [h3, h1]
      · simp only [Bool.not_eq_true] at h3
        simp [h3, h1, hne]

/-- C4: the storage resolution of a produced datum is 1 when the sample
carries the `__cw_high_res` control label or the global
force-high-resolution flag is set, and 60 otherwise; with the flag off this
agrees with the source `getResolution`. -/
theorem cwResolution_spec (force : Bool) (m : Metric) :
    ((metricLookup m cwHighResLabel).isSome = true ∨ force = true →
        cwResolution force m = 1) ∧
    ((metricLookup m cwHighResLabel).isSome = false ∧ force = false →
        cwResolution force m = 60) ∧
    cwResolution false m = getResolution m := by
  refine ⟨?_, ?_, ?_⟩
  · intro h
    unfold cwResolution
    rcases h with h | h <;> simp [h]
  · intro h
    unfold cwResolution
    simp [h.1, h.2]
  · unfold cwResolution getResolution
    simp

/-- C4 witness: a sample with the high-resolution label gets resolution 1,
any sample does under the force flag, and a plain sample gets 60. -/
theorem cwResolution_spec_witness :
    cwResolution false [(cwHighResLabel, "")] = 1 ∧
    cwResolution true [("__name__", "foo")] = 1 ∧
    cwResolution false [("__name__", "foo")] = 60 :=
  ⟨(cwResolution_spec false [(cwHighResLabel, "")]).1 (Or.inl (by decide)),
   (cwResolution_spec true [("__name__", "foo")]).1 (Or.inr rfl),
   (cwResolution_spec false [("__name__", "foo")]).2.1 ⟨by decide, rfl⟩⟩

/-- C6: a sample whose value fails numeric validation is silently dropped —
`appendDatum` returns its input unchanged — while zero always validates;
NaN, the infinities, and non-zero values whose magnitude falls outside the
accepted range all fail validation. -/
theorem validValue_gate_spec :
    (∀ (data : List MetricDatum) (name : String) (s : Sample) (b : Bridge),
        validValue s.value = false → appendDatum data name s b = data) ∧
    validValue (.finite 0) = true ∧
    validValue .nan = false ∧
    validValue (.inf true) = false ∧
    validValue (.inf false) = false ∧
    (∀ q : ℚ, q ≠ 0 → |q| ≤ valueTooSmall ∨ valueTooLarge ≤ |q| →
        validValue (.finite q) = false) := by
  refine ⟨?_, by decide, rfl, rfl, rfl, ?_⟩
  · intro data name s b h
    simp [appendDatum, h]
  · intro q hq hrange
    simp [validValue, hq, hrange]

/-- C6 witness: a NaN-valued sample is dropped, and the boundary magnitude
`2^260` fails validation. -/
theorem validValue_gate_spec_witness :
    validValue (Sample.mk [("__name__", "foo")] .nan 0).value = false ∧
    appendDatum [] "foo" ⟨[("__name__", "foo")], .nan, 0⟩ bridge0 = [] ∧
    validValue (.finite valueTooLarge) = false :=
  ⟨rfl,
   validValue_gate_spec.1 [] "foo" ⟨[("__name__", "foo")], .nan, 0⟩ bridge0 rfl,
   validValue_gate_spec.2.2.2.2.2 valueTooLarge (by norm_num [valueTooLarge])
     (Or.inr (le_abs_self _))⟩

/-- C7: the per-metric dimension policy takes, independently per axis, the
set of the first rule (in configured order) whose pattern matches the
metric name, a missing match meaning no restriction; a label survives only
if it is outside the matched exclude-set and, when an include-set matched,
inside it; the metric-name label and the two reserved control labels never
survive. -/
theorem dimensionPolicy_first_match_spec :
    (∀ (rules : List MatcherWithStringSet) (str : String),
        getMatchingSet rules str =
          ((rules.find? (fun r => r.matcher str)).map (fun r => r.set))) ∧
    (∀ (dimName : String) (includeSet excludeSet : Option StringSet),
        shouldIncludeDimension dimName includeSet excludeSet = true ↔
          (dimName ≠ metricNameLabel ∧ dimName ≠ cwHighResLabel ∧ dimName ≠ cwUnitLabel ∧
           (∀ s, excludeSet = some s → s dimName = false) ∧
           (includeSet = none ∨ ∃ s, includeSet = some s ∧ s dimName = true))) := by
  constructor
  · intro rules str
    induction rules with
    | nil => rfl
    | cons r rest ih =>
      simp only [getMatchingSet, List.find?]
      by_cases h : r.matcher str
      · simp [h]
      · simp only [h]
        simpa using ih
  · intro dimName inc exc
    unfold shouldIncludeDimension
    by_cases h1 : dimName = metricNameLabel ∨ dimName = cwHighResLabel ∨ dimName = cwUnitLabel
    · rw [if_pos h1]
      constructor
      · intro h
        simp at h
      · intro h
        tauto
    · rw [if_neg h1]
      push_neg at h1
      obtain ⟨n1, n2, n3⟩ := h1
      cases exc with
      | none =>
        cases inc with
        | none => simp [n1, n2, n3]
        | some s => simp [n1, n2, n3]
      | some es =>
        by_cases he : es dimName
        · simp only [he, if_true]
          constructor
          · intro h
            simp at h
          · rintro ⟨-, -, -, hexc, -⟩
            have := hexc es rfl
            rw [this] at he
            cases he
        · simp only [Bool.not_eq_true] at he
          rw [if_neg (by simp [he])]
          cases inc with
          | none => simp [n1, n2, n3, he]
          | some s => simp [n1, n2, n3, he]

/-- C7 witness: with one exclude rule matching the metric and excluding
`host`, the policy drops `host`, keeps `vpc`, and always drops the reserved
labels. -/
theorem dimensionPolicy_first_match_spec_witness :
    getMatchingSet [⟨fun s => s == "foo", fun d => d == "host"⟩] "foo" =
      (([(⟨fun s => s == "foo", fun d => d == "host"⟩ : MatcherWithStringSet)].find?
        (fun r => r.matcher "foo")).map (fun r => r.set)) ∧
    (shouldIncludeDimension "vpc" none (some (fun d => d == "host")) = true ↔
      ("vpc" ≠ metricNameLabel ∧ "vpc" ≠ cwHighResLabel ∧ "vpc" ≠ cwUnitLabel ∧
       (∀ s, (some (fun d : String => d == "host")) = some s → s "vpc" = false) ∧
       ((none : Option StringSet) = none ∨
        ∃ s, (none : Option StringSet) = some s ∧ s "vpc" = true))) :=
  ⟨dimensionPolicy_first_match_spec.1 [⟨fun s => s == "foo", fun d => d == "host"⟩] "foo",
   dimensionPolicy_first_match_spec.2 "vpc" none (some (fun d => d == "host"))⟩

theorem dimsOfNames_congr (m : Metric) (b b2 : Bridge)
    (h : b.replaceDimensions = b2.replaceDimensions) (l : List String) :
    dimsOfNames m b l = dimsOfNames m b2 l := by
  induction l with
  | nil => rfl
  | cons n rest ih => simp only [dimsOfNames, ih, h]

theorem getDimensions_congr (m : Metric) (num : Nat) (b b2 : Bridge)
    (hrp : b.replaceDimensions = b2.replaceDimensions)
    (hidm : b.includeDimensionsForMetrics = b2.includeDimensionsForMetrics)
    (hedm : b.excludeDimensionsForMetrics = b2.excludeDimensionsForMetrics) :
    getDimensions m num b = getDimensions m num b2 := by
  simp only [getDimensions, hidm, hedm, dimsOfNames_congr m b b2 hrp]

theorem map_name_filterMap_dimOfName (m : Metric) (l : List String) :
    (l.filterMap (dimOfName m)).map (fun d => d.name) =
      l.filter (fun n => decide (n ≠ "" ∧ metricLookupD m n ≠ "")) := by
  induction l with
  | nil => rfl
  | cons n rest ih =>
    simp only [List.filterMap_cons, List.filter_cons, dimOfName]
    by_cases h : n ≠ "" ∧ metricLookupD m n ≠ ""
    · simp [h, ih]
    · simp [h, ih]

/-- C3: a datum's sample-derived dimension list is exactly the surviving
label names sorted lexicographically, empty-valued entries dropped, and the
whole truncated to the lexicographically first
`10 − count(global extra dimensions)` entries; consequently the published
names are sorted and no published value is empty. -/
theorem getDimensions_sorted_truncated_spec (m : Metric) (b : Bridge) :
    (getDimensions m (10 - b.additionalDimensions.length) b).1 =
      (specDims m b).take (10 - b.additionalDimensions.length) ∧
    List.Sorted (· ≤ ·)
      (((getDimensions m (10 - b.additionalDimensions.length) b).1).map (fun d => d.name)) ∧
    (∀ d ∈ (getDimensions m (10 - b.additionalDimensions.length) b).1, d.value ≠ "") := by
  refine ⟨getDimensions_fst m _ b, ?_, ?_⟩
  · rw [getDimensions_fst, List.map_take]
    have hsorted : List.Sorted (· ≤ ·) ((specDims m b).map (fun d => d.name)) := by
      rw [specDims, map_name_filterMap_dimOfName]
      exact List.Pairwise.sublist (List.filter_sublist _) (sortStrings_sorted _)
    exact List.Pairwise.sublist (List.take_sublist _ _) hsorted
  · intro d hd
    rw [getDimensions_fst] at hd
    have hd2 := List.take_subset _ _ hd
    rw [specDims] at hd2
    obtain ⟨n, _, hn⟩ := List.mem_filterMap.mp hd2
    simp only [dimOfName] at hn
    by_cases h : n ≠ "" ∧ metricLookupD m n ≠ ""
    · rw [if_pos h] at hn
      cases hn
      exact h.2
    · rw [if_neg h] at hn
      cases hn

/-- C3 witness: the twelve-label test metric publishes exactly the
lexicographically first ten eligible label names. -/
theorem getDimensions_sorted_truncated_spec_witness :
    ((getDimensions metricMany (10 - bridge0.additionalDimensions.length) bridge0).1.map
        (fun d => d.name)) =
      ["label1", "label10", "label11", "label2", "label3", "label4", "label5",
       "label6", "label7", "label8"] ∧
    ((getDimensions metricMany (10 - bridge0.additionalDimensions.length) bridge0).1 =
        (specDims metricMany bridge0).take (10 - bridge0.additionalDimensions.length) ∧
      List.Sorted (· ≤ ·)
        (((getDimensions metricMany (10 - bridge0.additionalDimensions.length) bridge0).1).map
          (fun d => d.name)) ∧
      (∀ d ∈ (getDimensions metricMany (10 - bridge0.additionalDimensions.length) bridge0).1,
        d.value ≠ "")) :=
  ⟨by decide, getDimensions_sorted_truncated_spec metricMany bridge0⟩

/-- C9 counterexample: a sample with no labels at all is dropped by
`appendDatum` — no datum with an empty dimension list is produced, contrary
to the claim. -/
theorem empty_sample_produces_no_datum :
    appendDatum [] "" ⟨[], .finite 1, 0⟩ bridge0 = [] := rfl

/-- C9 amended: a sample with at least one label, all of whose labels are
the metric-name label or the two reserved control labels (so zero eligible
labels remain), still produces exactly one datum whose dimension list is
just the configured global extra dimensions (empty when none are
configured); a sample with no labels at all is instead dropped. -/
theorem reserved_only_sample_empty_dimensions (data : List MetricDatum) (name : String)
    (s : Sample) (b : Bridge) (hm : s.metric ≠ [])
    (hv : validValue s.value = true)
    (hres : ∀ p ∈ s.metric,
      p.1 = metricNameLabel ∨ p.1 = cwHighResLabel ∨ p.1 = cwUnitLabel) :
    appendDatum data name s b =
      data ++ [⟨name, s.value, s.timestamp, getAdditionalDimensions b,
                getResolution s.metric, getUnit s.metric⟩] := by
  have hen : eligibleNames s.metric b = [] := by
    rw [eligibleNames, List.filter_eq_nil_iff]
    intro n hn
    obtain ⟨p, hp, rfl⟩ := List.mem_map.mp hn
    rcases hres p hp with h | h | h <;> simp [shouldIncludeDimension, h]
  have h1 : (getDimensions s.metric (10 - b.additionalDimensions.length) b).1 = [] := by
    rw [getDimensions_fst, specDims, hen]
    simp [sortStrings]
  have h2 : (getDimensions s.metric (10 - b.additionalDimensions.length) b).2 = [] := by
    by_cases hrep : b.replaceDimensions = []
    · exact getDimensions_snd_empty _ _ _ hrep
    · rw [getDimensions_snd_map _ _ _ hrep, h1]
      rfl
  simp only [appendDatum]
  rw [if_neg (by simpa using hm), if_neg (by simp [hv]), h1, h2]
  simp

set_option maxRecDepth 100000 in
/-- C9 witness: a sample whose labels are the metric-name label and the two
reserved control labels produces one datum with no dimensions, resolution 1
and unit Bytes. -/
theorem reserved_only_sample_empty_dimensions_witness :
    appendDatum [] "foo" sampleReserved bridge0 =
      [] ++ [⟨"foo", sampleReserved.value, sampleReserved.timestamp,
              getAdditionalDimensions bridge0, getResolution sampleReserved.metric,
              getUnit sampleReserved.metric⟩] :=
  reserved_only_sample_empty_dimensions [] "foo" sampleReserved bridge0
    (by decide) (by decide) (by decide)

set_option maxRecDepth 100000 in
/-- C5 counterexample: with the substitution map `host ↦ ALL` configured
and non-empty, a sample carrying only the metric-name label (hence no
published sample-derived dimension) yields exactly one datum — no second
substituted datum is emitted alongside, contrary to the claim for every
eligible sample. -/
theorem replaceDimensions_no_second_datum_when_dimensionless :
    bridgeRepl.replaceDimensions ≠ [] ∧
    (appendDatum [] "m0" sampleNameOnly bridgeRepl).length = 1 := by
  refine ⟨by decide, by decide⟩

/-- C5 amended: when the substitution map is configured and non-empty, and
the sample yields at least one published sample-derived dimension, a second
datum is emitted alongside (not instead of) the first with identical metric
name, value, timestamp, resolution and unit; its sample-derived dimensions
are the first datum's with every dimension whose name is in the map
replaced by the configured substitute and all others kept unchanged, while
the appended global extra dimensions are left unsubstituted in both.  A
sample with no published sample-derived dimension gets no second datum. -/
theorem replaceDimensions_second_datum_spec (data : List MetricDatum) (name : String)
    (s : Sample) (b : Bridge) (hrep : b.replaceDimensions ≠ [])
    (hm : s.metric ≠ []) (hv : validValue s.value = true)
    (hd : (getDimensions s.metric (10 - b.additionalDimensions.length) b).1 ≠ []) :
    appendDatum data name s b =
      data ++
        [⟨name, s.value, s.timestamp,
          (getDimensions s.metric (10 - b.additionalDimensions.length) b).1 ++
            getAdditionalDimensions b, getResolution s.metric, getUnit s.metric⟩,
         ⟨name, s.value, s.timestamp,
          ((getDimensions s.metric (10 - b.additionalDimensions.length) b).1).map
              (substDim b.replaceDimensions) ++ getAdditionalDimensions b,
          getResolution s.metric, getUnit s.metric⟩] := by
  simp only [appendDatum]
  rw [if_neg (by simpa using hm), if_neg (by simp [hv]),
    getDimensions_snd_map _ _ _ hrep,
    if_pos (by simpa [List.length_pos] using hd)]
  simp

set_option maxRecDepth 100000 in
/-- C5 witness: a sample with a `host` dimension and substitution map
`host ↦ ALL` yields the original datum plus a substituted one. -/
theorem replaceDimensions_second_datum_spec_witness :
    bridgeRepl.replaceDimensions ≠ [] ∧
    appendDatum [] "m1" (sampleHost "1") bridgeRepl =
      [] ++
        [⟨"m1", (sampleHost "1").value, (sampleHost "1").timestamp,
          (getDimensions (sampleHost "1").metric
              (10 - bridgeRepl.additionalDimensions.length) bridgeRepl).1 ++
            getAdditionalDimensions bridgeRepl, getResolution (sampleHost "1").metric,
          getUnit (sampleHost "1").metric⟩,
         ⟨"m1", (sampleHost "1").value, (sampleHost "1").timestamp,
          ((getDimensions (sampleHost "1").metric
              (10 - bridgeRepl.additionalDimensions.length) bridgeRepl).1).map
              (substDim bridgeRepl.replaceDimensions) ++
            getAdditionalDimensions bridgeRepl, getResolution (sampleHost "1").metric,
          getUnit (sampleHost "1").metric⟩] :=
  ⟨by decide,
   replaceDimensions_second_datum_spec [] "m1" (sampleHost "1") bridgeRepl
     (by decide) (by decide) (by decide) (by decide)⟩

set_option maxRecDepth 100000 in
/-- C10 counterexample: the same sample and the same extra-dimensions map
enumerated in two different orders — as Go map iteration may do between two
runs — produce different datums, so the transformer's output is not a
function of sample and configuration alone. -/
theorem transformer_depends_on_map_iteration_order :
    (Bridge.mk [("a", "1"), ("b", "2")] [] [] [] [] []).additionalDimensions.Perm
      (Bridge.mk [("b", "2"), ("a", "1")] [] [] [] [] []).additionalDimensions ∧
    appendDatum [] "foo" (⟨[("__name__", "foo"), ("host", "h1")], .finite 1, 0⟩ : Sample)
        (Bridge.mk [("a", "1"), ("b", "2")] [] [] [] [] []) ≠
      appendDatum [] "foo" (⟨[("__name__", "foo"), ("host", "h1")], .finite 1, 0⟩ : Sample)
        (Bridge.mk [("b", "2"), ("a", "1")] [] [] [] [] []) := by
  refine ⟨by decide, by decide⟩

/-- C10 amended: the transformer is a pure function of the sample, the
configuration, and the iteration order of the extra-dimensions map; its
sample-derived dimensions do not depend on that order, and permuting the
order permutes only the appended extras: the two runs produce datum lists
of the same length whose corresponding datums agree on metric name, value,
timestamp, resolution and unit and whose dimension lists are permutations
of one another. -/
theorem transformer_deterministic_up_to_extras_order (data : List MetricDatum)
    (name : String) (s : Sample) (b : Bridge) (l2 : List (String × String))
    (hperm : b.additionalDimensions.Perm l2) :
    List.Forall₂
      (fun d1 d2 : MetricDatum =>
        d1.metricName = d2.metricName ∧ d1.value = d2.value ∧
        d1.timestamp = d2.timestamp ∧ d1.storageResolution = d2.storageResolution ∧
        d1.unit = d2.unit ∧ d1.dimensions.Perm d2.dimensions)
      (appendDatum data name s b)
      (appendDatum data name s { b with additionalDimensions := l2 }) := by
  obtain ⟨ad, rp, im, em, idm, edm⟩ := b
  simp only at hperm
  have hlen : ad.length = l2.length := hperm.length_eq
  have hextra : (ad.map (fun kv => (⟨kv.1, kv.2⟩ : Dimension))).Perm
      (l2.map (fun kv => (⟨kv.1, kv.2⟩ : Dimension))) := hperm.map _
  have hdata : List.Forall₂
      (fun d1 d2 : MetricDatum =>
        d1.metricName = d2.metricName ∧ d1.value = d2.value ∧
        d1.timestamp = d2.timestamp ∧ d1.storageResolution = d2.storageResolution ∧
        d1.unit = d2.unit ∧ d1.dimensions.Perm d2.dimensions) data data := by
    refine List.forall₂_same.mpr ?_
    intro x _
    exact ⟨rfl, rfl, rfl, rfl, rfl, List.Perm.refl _⟩
  have hsingle : ∀ (e1 e2 : List Dimension), e1.Perm e2 →
      ∀ (nm : String) (v : GoFloat) (ts : Int) (res : Int) (u : String),
      (fun d1 d2 : MetricDatum =>
        d1.metricName = d2.metricName ∧ d1.value = d2.value ∧
        d1.timestamp = d2.timestamp ∧ d1.storageResolution = d2.storageResolution ∧
        d1.unit = d2.unit ∧ d1.dimensions.Perm d2.dimensions)
        ⟨nm, v, ts, e1, res, u⟩ ⟨nm, v, ts, e2, res, u⟩ := by
    intro e1 e2 hp nm v ts res u
    exact ⟨rfl, rfl, rfl, rfl, rfl, hp⟩
  simp only [appendDatum, getAdditionalDimensions]
  rw [show (Bridge.mk l2 rp im em idm edm).additionalDimensions.length = ad.length from
    hlen.symm]
  rw [getDimensions_congr s.metric (10 - ad.length) (Bridge.mk l2 rp im em idm edm)
    (Bridge.mk ad rp im em idm edm) rfl rfl rfl]
  split <;> (try split) <;> (try split) <;>
    first
      | exact hdata
      | exact List.rel_append hdata
          (List.Forall₂.cons (hsingle _ _ (List.Perm.append_left _ hextra) _ _ _ _ _)
            List.Forall₂.nil)
      | exact List.rel_append
          (List.rel_append hdata
            (List.Forall₂.cons (hsingle _ _ (List.Perm.append_left _ hextra) _ _ _ _ _)
              List.Forall₂.nil))
          (List.Forall₂.cons (hsingle _ _ (List.Perm.append_left _ hextra) _ _ _ _ _)
            List.Forall₂.nil)

set_option maxRecDepth 100000 in
/-- C10 witness: for extras `a=1, b=2` enumerated in the two possible
orders, the runs correspond datum-by-datum up to a permutation of each
dimension list. -/
theorem transformer_deterministic_up_to_extras_order_witness :
    ([("a", "1"), ("b", "2")] : List (String × String)).Perm [("b", "2"), ("a", "1")] ∧
    List.Forall₂
      (fun d1 d2 : MetricDatum =>
        d1.metricName = d2.metricName ∧ d1.value = d2.value ∧
        d1.timestamp = d2.timestamp ∧ d1.storageResolution = d2.storageResolution ∧
        d1.unit = d2.unit ∧ d1.dimensions.Perm d2.dimensions)
      (appendDatum [] "foo" sampleNameOnly bridgeExtrasAB)
      (appendDatum [] "foo" sampleNameOnly
        { bridgeExtrasAB with additionalDimensions := [("b", "2"), ("a", "1")] }) :=
  ⟨by decide,
   transformer_deterministic_up_to_extras_order [] "foo" sampleNameOnly bridgeExtrasAB
     [("b", "2"), ("a", "1")] (by decide)⟩

/-- C8: the pattern of flush failures has no influence on which batches the
publish loop hands to `flush` or on the metric count: a failed flush is
only logged, every subsequent batch of the same cycle is still attempted,
and only the final flush's error is propagated. -/
theorem flush_failure_does_not_abort_cycle (b : Bridge) :
    ∀ (ss : List Sample) (fail fail' : Nat → Bool) (data : List MetricDatum)
      (count fi fi' : Nat),
      (publishGo fail b ss data count fi).flushes =
        (publishGo fail' b ss data count fi').flushes ∧
      (publishGo fail b ss data count fi).count =
        (publishGo fail' b ss data count fi').count := by
  intro ss
  induction ss with
  | nil =>
    intro fail fail' data count fi fi'
    exact ⟨rfl, rfl⟩
  | cons s rest ih =>
    intro fail fail' data count fi fi'
    simp only [publishGo]
    split
    · exact ih fail fail' data count fi fi'
    · split
      · have h := ih fail fail' [] (count + batchSize) (fi + 1) (fi' + 1)
        exact ⟨by simp [h.1], by simpa using h.2⟩
      · exact ih fail fail' _ count fi fi'

set_option maxRecDepth 200000 in
/-- C1 counterexample: with dimension substitution configured, a sample can
append two datums at once, the accumulator steps over the exact batch-size
check, and the cycle's single flush carries 13 datums — more than the fixed
maximum batch size of 10. -/
theorem batch_flush_can_exceed_batchSize :
    ((publishGo (fun _ => false) bridgeRepl samplesOddStep [] 0 0).flushes.map
      List.length) = [13] ∧
    ¬ (∀ batch ∈ (publishGo (fun _ => false) bridgeRepl samplesOddStep [] 0 0).flushes,
        batch.length ≤ batchSize) := by
  refine ⟨by decide, by decide⟩

/-- C1 amended: when every sample contributes at most one datum — that is,
when no dimension substitution is configured — the publish loop flushes a
batch exactly each time the accumulated sequence reaches the batch-size
constant 10, starts a new batch, and flushes the remaining partial batch at
the end: the flushed batches are precisely the 10-chunks of the cycle's
eligible datum sequence and every flush carries at most 10 datums.  With
substitution configured a sample may append two datums, the equality test
against the batch size can be skipped, and a flush may exceed it. -/
theorem batch_flush_chunks_of_batchSize (fail : Nat → Bool) (b : Bridge)
    (ss : List Sample) (hrep : b.replaceDimensions = []) :
    (publishGo fail b ss [] 0 0).flushes = chunksOf batchSize (flatDatums b ss) ∧
    ∀ batch ∈ (publishGo fail b ss [] 0 0).flushes, batch.length ≤ batchSize := by
  have h := publishGo_flushes_chunks fail b hrep ss [] 0 0 (by norm_num [batchSize])
  rw [List.nil_append] at h
  refine ⟨h, ?_⟩
  rw [h]
  exact chunksOf_length_le batchSize (by norm_num [batchSize]) _

set_option maxRecDepth 400000 in
/-- C1 witness: twenty-five eligible samples with no substitution flush as
chunks of ten — three publish calls of sizes 10, 10 and 5. -/
theorem batch_flush_chunks_of_batchSize_witness :
    bridge0.replaceDimensions = [] ∧
    ((publishGo (fun _ => false) bridge0 samples25 [] 0 0).flushes =
        chunksOf batchSize (flatDatums bridge0 samples25) ∧
      ∀ batch ∈ (publishGo (fun _ => false) bridge0 samples25 [] 0 0).flushes,
        batch.length ≤ batchSize) ∧
    (flatDatums bridge0 samples25).length = 25 ∧
    ((publishGo (fun _ => false) bridge0 samples25 [] 0 0).flushes.map List.length) =
      [10, 10, 5] :=
  ⟨rfl, batch_flush_chunks_of_batchSize (fun _ => false) bridge0 samples25 rfl,
   by decide, by decide⟩

end PTC
